import Mathlib

/-!
Verification of the groupme-gallery-downloader core against its source.

The definitions below are a shallow embedding of `src/media-list-builder.js`
and `src/media-downloader.js`.  Network and filesystem effects are made
explicit: the remote server is a list of responses the listing loop will
consume in order, and each download's network behaviour is an oracle value.
The queue store (`db.js`, whose source is not part of the repository
snapshot) is modelled from the spec where needed.
-/

namespace GGD

/-! ## String helpers (media-list-builder.js, sanitizeString lines 10-15) -/

/-- Embeds the whitespace set trimmed by `String.prototype.trim`. -/
def jsWhitespace (c : Char) : Bool := c.isWhitespace

/-- Embeds `string.trim()`: drop leading and trailing whitespace. -/
def jsTrim (cs : List Char) : List Char :=
  ((cs.dropWhile jsWhitespace).reverse.dropWhile jsWhitespace).reverse

/-- Embeds `.replace(' ', '-')` with a string pattern: only the first
space is replaced by a hyphen. -/
def replaceFirstSpace : List Char → List Char
  | [] => []
  | c :: cs => if c = ' ' then '-' :: cs else c :: replaceFirstSpace cs

/-- Embeds the character class in the regex of `sanitizeString`
(line 14).  The bracket that opens right after the group makes the
whole pattern a character class whose members are the characters
between it and the first unescaped closing bracket; the many pipes
collapse into a single member.  The resulting set is
less-than, pipe, greater-than, colon, double quote, forward slash,
question mark, asterisk, closing bracket and ampersand.  A backslash is
not a member. -/
def inSanitizeClass (c : Char) : Bool :=
  c = '<' || c = '|' || c = '>' || c = ':' || c = '"' || c = '/' ||
    c = '?' || c = '*' || c = ']' || c = '&'

/-- Embeds `sanitizeString` (media-list-builder.js lines 10-15):
trim, replace the first space with a hyphen, then replace every
character of the class with an underscore. -/
def sanitizeString (s : String) : String :=
  String.mk ((replaceFirstSpace (jsTrim s.data)).map
    (fun c => if inSanitizeClass c then '_' else c))

/-- Embeds the poster-name expression
`msg.name ? sanitizeString(msg.name) : 'UnknownUser'`
(media-list-builder.js line 89); an absent or empty (falsy) name yields
the literal UnknownUser. -/
def userOf : Option String → String
  | some n => if n = "" then "UnknownUser" else sanitizeString n
  | none => "UnknownUser"

/-! ## Remote listing builder (media-list-builder.js, mediaListBuilder) -/

/-- A message attachment as consumed by the listing loop. -/
structure Att where
  type : String
  url : String
deriving DecidableEq

/-- A message of the remote history, with the fields the loop reads. -/
structure Msg where
  id : String
  name : Option String
  created_at : Nat
  attachments : List Att
deriving DecidableEq

/-- A media item pushed onto `allMedia` (lines 86-91). -/
structure BItem where
  url : String
  messageId : String
  user : String
  created : Nat
deriving DecidableEq

/-- One page request issued by the loop: the endpoint always carries
`limit=100`, and `before_id` when a cursor is set (lines 56-58). -/
structure Req where
  limit : Nat
  before_id : Option String
deriving DecidableEq

/-- One response served by the remote API to the listing loop. -/
structure Resp where
  status : Nat
  messages : List Msg
deriving DecidableEq

/-- The item built from a message and one of its image attachments
(lines 86-91). -/
def mkItem (m : Msg) (a : Att) : BItem :=
  ⟨a.url, m.id, userOf m.name, m.created_at⟩

/-- The nested iteration of lines 79-95 flattened: every
(message, attachment) pair whose attachment has type image, in message
order then attachment order. -/
def imagePairs (msgs : List Msg) : List (Msg × Att) :=
  msgs.flatMap (fun m =>
    (m.attachments.filter (fun a => a.type = "image")).map (fun a => (m, a)))

/-- One step of the seen-set/accumulator update of lines 84-92: an
unseen url is recorded and its item appended, a seen url is skipped. -/
def addItem (st : List String × List BItem) (p : Msg × Att) :
    List String × List BItem :=
  if st.1.contains p.2.url then st
  else (p.2.url :: st.1, st.2 ++ [mkItem p.1 p.2])

/-- Embeds the `while (hasMore)` pagination loop (lines 55-98) run
against a server that will serve the given responses in order and an
empty 200 page once they are exhausted.  Statuses other than 200 and
304 throw (401 specially); a 304 is handled as an empty message list
(line 71); an empty page ends the loop; otherwise the page is folded
into the seen-set and accumulator and the cursor advances to the id of
the page's last message (line 97).  The returned trace records every
request issued. -/
def buildGo : List Resp → Option String → List String → List BItem →
    Except String (List BItem × List Req)
  | [], before, _, acc => Except.ok (acc, [⟨100, before⟩])
  | r :: rs, before, seen, acc =>
    if r.status = 200 ∨ r.status = 304 then
      let msgs := if r.status = 304 then [] else r.messages
      match msgs.getLast? with
      | none => Except.ok (acc, [⟨100, before⟩])
      | some lastM =>
        let st := (imagePairs msgs).foldl addItem (seen, acc)
        match buildGo rs (some lastM.id) st.1 st.2 with
        | Except.ok (m, reqs) => Except.ok (m, ⟨100, before⟩ :: reqs)
        | Except.error e => Except.error e
    else if r.status = 401 then Except.error "Invalid or expired token"
    else Except.error ("API request failed with status " ++ toString r.status)

/-- The listing loop from its initial state: no cursor, empty seen set,
empty accumulator (lines 50-53). -/
def runBuilder (resps : List Resp) : Except String (List BItem × List Req) :=
  buildGo resps none [] []

/-- The media list the builder returns (empty on a thrown error). -/
def builtMedia (resps : List Resp) : List BItem :=
  match runBuilder resps with
  | Except.ok (m, _) => m
  | Except.error _ => []

/-- The request trace of a listing run (empty on a thrown error). -/
def builtReqs (resps : List Resp) : List Req :=
  match runBuilder resps with
  | Except.ok (_, r) => r
  | Except.error _ => []

/-! ### Specification-side vocabulary used to state the listing claims -/

/-- First-occurrence deduplication relative to a seen set. -/
def dedupFirstAux (seen : List String) : List String → List String
  | [] => []
  | u :: us =>
    if seen.contains u then dedupFirstAux seen us
    else u :: dedupFirstAux (u :: seen) us

/-- The seen set after absorbing a list of urls. -/
def seenAfter (seen : List String) : List String → List String
  | [] => seen
  | u :: us => seenAfter (if seen.contains u then seen else u :: seen) us

/-- The items a page's pairs contribute given a seen set. -/
def addedItems (seen : List String) : List (Msg × Att) → List BItem
  | [] => []
  | p :: ps =>
    if seen.contains p.2.url then addedItems seen ps
    else mkItem p.1 p.2 :: addedItems (p.2.url :: seen) ps

/-- The urls of a pair list. -/
def urlsOfPairs (ps : List (Msg × Att)) : List String :=
  ps.map (fun p => p.2.url)

/-- The items contributed page after page. -/
def addedAll (seen : List String) : List (List Msg) → List BItem
  | [] => []
  | p :: ps =>
    addedItems seen (imagePairs p)
      ++ addedAll (seenAfter seen (urlsOfPairs (imagePairs p))) ps

/-- All image-attachment urls of a page sequence, in page order and
within-page message order. -/
def imageUrls (pages : List (List Msg)) : List String :=
  pages.flatMap (fun p => urlsOfPairs (imagePairs p))

/-! ## Filename resolution (media-downloader.js, renameFile lines 48-98) -/

/-- Embeds the hostname field of `url.parse`: the run of characters
after the first double slash up to a slash, colon, question mark or
hash sign, lowercased; absent when the url has no double slash. -/
def hostnameTail : List Char → Option (List Char)
  | [] => none
  | '/' :: '/' :: rest => some rest
  | _ :: rest => hostnameTail rest

/-- The hostname of a url as `url.parse(u).hostname` computes it. -/
def hostnameOf (u : String) : Option String :=
  (hostnameTail u.data).map (fun rest =>
    String.mk ((rest.takeWhile
      (fun c => ¬ (c = '/' ∨ c = ':' ∨ c = '?' ∨ c = '#'))).map Char.toLower))

/-- Embeds the full match of the regex that pairs 32 arbitrary
characters with the end of the string modulo trailing whitespace
(line 59), for urls free of newline characters.  The match exists
exactly when the string has at least 32 characters; it starts at the
leftmost position from which the characters beyond the first 32 are all
whitespace, so on a url with no trailing whitespace it is the last 32
characters. -/
def imageHashMatch (cs : List Char) : Option (List Char) :=
  if 32 ≤ cs.length then
    some (cs.drop (cs.length - (cs.reverse.takeWhile jsWhitespace).length - 32))
  else none

/-- Embeds the full match of the regex asking for a nonempty run of
non-slash characters at the end of the string (line 63): the maximal
slash-free suffix, absent when it is empty. -/
def videoHashMatch (cs : List Char) : Option (List Char) :=
  let t := (cs.reverse.takeWhile (fun c => ¬ c = '/')).reverse
  if t.isEmpty then none else some t

/-- The image extension alternatives of line 10, in alternation order. -/
def IMAGE_FILE_TYPES : List String := ["png", "jpeg", "jpg", "gif", "bmp", "webp"]

/-- The video extension alternatives of line 11, in alternation order. -/
def VIDEO_FILE_TYPES : List String := ["mp4", "mov", "wmv", "mkv", "webm"]

/-- The first alternative (in alternation order) that is a prefix of
the given characters. -/
def extMatchAt (alts : List String) (cs : List Char) : Option String :=
  alts.findSome? (fun a => if a.data.isPrefixOf cs then some a else none)

/-- Embeds `fileTypes.exec(fileUrl)` (line 71): the leftmost occurrence
of a dot followed by one of the alternatives; the match text is the dot
plus the alternative. -/
def firstExtMatch (alts : List String) : List Char → Option String
  | [] => none
  | c :: rest =>
    if c = '.' then
      match extMatchAt alts rest with
      | some a => some ("." ++ a)
      | none => firstExtMatch alts rest
    else firstExtMatch alts rest

/-- Embeds `userName.split(' ').join('_')` (line 80): split on single
spaces, keeping empty fragments, as the JavaScript split does. -/
def splitOnChar (sep : Char) : List Char → List (List Char)
  | [] => [[]]
  | c :: rest =>
    let r := splitOnChar sep rest
    if c = sep then [] :: r
    else
      match r with
      | [] => [[c]]
      | h :: t => (c :: h) :: t

/-- Joining fragments with a separator, as `join` does. -/
def joinWith (sep : Char) : List (List Char) → List Char
  | [] => []
  | [x] => x
  | x :: xs => x ++ sep :: joinWith sep xs

/-- The poster-name cleanup of line 80. -/
def jsUserName (userName : String) : String :=
  String.mk (joinWith '_' (splitOnChar ' ' userName.data))

/-- Embeds `renameFile` (media-downloader.js lines 48-98).  The url is
an image exactly when its hostname is the image-serving host; the hash
is the 32-character regex match for images and the first dot-prefix of
the last path segment for videos, the literal unknown when the regex
fails; the extension is the first match of the image or video pattern,
defaulting to a jpg or mp4 suffix; the result is user, hyphen, hash,
extension. -/
def renameFile (fileUrl userName : String) : String :=
  let isImage : Bool := hostnameOf fileUrl == some "i.groupme.com"
  let imageHash := match imageHashMatch fileUrl.data with
    | some m => String.mk m
    | none => "unknown"
  let videoHash := match videoHashMatch fileUrl.data with
    | some m => String.mk (m.takeWhile (fun c => ¬ c = '.'))
    | none => "unknown"
  let fileTypes := if isImage then IMAGE_FILE_TYPES else VIDEO_FILE_TYPES
  let possibleFileType := firstExtMatch fileTypes fileUrl.data
  let hash := if isImage then imageHash else videoHash
  let user := jsUserName userName
  let fileType := match possibleFileType with
    | some t => t
    | none => if isImage then ".jpg" else ".mp4"
  user ++ "-" ++ hash ++ fileType

/-! ## Download worker and scheduler (media-downloader.js lines 118-295) -/

/-- A JavaScript url value as the worker's validity check sees it:
missing (undefined or null), present but not a string, or a string. -/
inductive JsUrl where
  | missing
  | nonString
  | str (s : String)
deriving DecidableEq

/-- A queued media item as the downloader destructures it (line 143). -/
structure DItem where
  url : JsUrl
  user : String
  created : Option Nat
deriving DecidableEq

/-- Substring containment, as `String.prototype.includes`. -/
def hasSubstring (needle : List Char) : List Char → Bool
  | [] => needle.isPrefixOf []
  | c :: t => needle.isPrefixOf (c :: t) || hasSubstring needle t

/-- Embeds the validity check of line 146: the url must be truthy (a
nonempty string), a string, and contain the service domain. -/
def urlValid : JsUrl → Bool
  | JsUrl.str s => (s != "") && hasSubstring "groupme.com".data s.data
  | _ => false

/-- The network behaviour an item's single request can exhibit: the
timeout fires first, a response arrives with some status, the request
errors at transport level, or the write stream errors. -/
inductive Behavior where
  | timeout
  | response (status : Nat)
  | requestError
  | fsError
deriving DecidableEq

/-- The terminal classification of one worker invocation. -/
inductive Outcome where
  | success
  | skipped (reason : String)
  | failed (reason : String)
deriving DecidableEq

/-- What one worker invocation did: its outcome, whether an HTTP
request was issued, whether the request was explicitly destroyed,
whether the destination file was opened, and whether a file remains on
disk afterwards. -/
structure StepResult where
  outcome : Outcome
  requestIssued : Bool
  requestDestroyed : Bool
  fileCreated : Bool
  fileExistsAfter : Bool
deriving DecidableEq

/-- Embeds one worker invocation (lines 141-276).  An invalid url is
skipped before any file or request is created (lines 146-150).  On a
valid url the write stream is opened and the request issued; the
timeout branch destroys the request and unlinks the partial file
(lines 161-175); a non-200 response closes the file and skips, leaving
the empty file in place (lines 178-192); a 200 response streams to disk
and succeeds (lines 194-250); a request error unlinks the partial file
(lines 253-265); a write-stream error destroys the request but does not
unlink (lines 267-274). -/
def downloadItem (beh : Behavior) (it : DItem) : StepResult :=
  if urlValid it.url then
    match beh with
    | Behavior.timeout => ⟨Outcome.failed "timeout", true, true, true, false⟩
    | Behavior.response s =>
      if s = 200 then ⟨Outcome.success, true, false, true, true⟩
      else ⟨Outcome.skipped ("http-status:" ++ toString s), true, false, true, true⟩
    | Behavior.requestError => ⟨Outcome.failed "transport-error", true, false, true, false⟩
    | Behavior.fsError => ⟨Outcome.failed "filesystem-error", true, true, true, true⟩
  else ⟨Outcome.skipped "invalid-url", false, false, false, false⟩

/-- Modelled from the spec: `db.js` is not part of the repository
snapshot; per the Queue Store interface, `removeMediaItem` deletes the
pending entries whose url equals the given key, and deleting an absent
key is a no-op. -/
def removeMediaItem (pending : List DItem) (u : JsUrl) : List DItem :=
  pending.filter (fun it => it.url != u)

/-- Embeds the recursive `downloader` loop (lines 134-281) threading
the persisted queue through it: each step shifts the first item,
classifies it with the behaviour oracle at its index, removes it from
the persisted queue by url in every terminal branch (lines 148, 173,
189, 242, 263, 272), and continues with the rest; the queue state is
recorded before each step and once at the end. -/
def downloaderGo (beh : Nat → Behavior) :
    List DItem → Nat → List DItem → List Outcome × List (List DItem)
  | [], _, db => ([], [db])
  | it :: rest, idx, db =>
    let r := downloadItem (beh idx) it
    let next := downloaderGo beh rest (idx + 1) (removeMediaItem db it.url)
    (r.outcome :: next.1, db :: next.2)

/-- The outcome list of a full drain started on a freshly persisted
queue (the queue store holds the same items the loop iterates over). -/
def drainOutcomes (beh : Nat → Behavior) (items : List DItem) : List Outcome :=
  (downloaderGo beh items 0 items).1

/-- The successive persisted-queue states of a full drain. -/
def dbStates (beh : Nat → Behavior) (items : List DItem) : List (List DItem) :=
  (downloaderGo beh items 0 items).2

/-- The media list handed to `mediaDownloader`. -/
structure MediaList where
  groupId : String
  groupName : String
  media : List DItem
deriving DecidableEq

/-- Embeds `mediaDownloader` (lines 118-295): reject a media list with
a falsy group id or name, otherwise drain a copy of the media array
against the persisted queue.  The second argument mirrors the parallel
count the callers pass; the source function declares no such parameter,
so it is ignored. -/
def mediaDownloader (beh : Nat → Behavior) (ml : MediaList)
    (_parallelCount : Nat) : Except String (List Outcome × List (List DItem)) :=
  if ml.groupId = "" ∨ ml.groupName = "" then
    Except.error "Invalid media list: missing group information"
  else
    Except.ok (downloaderGo beh ml.media 0 ml.media)

/-! ### Event traces of the download loop, for the scheduling claims -/

/-- Scheduling events: a worker starts on the item at an index, a
worker finishes, an item is consumed without any network work, the
promise resolves. -/
inductive Ev where
  | start (idx : Nat)
  | finish (idx : Nat)
  | skipNoNet (idx : Nat)
  | resolve
deriving DecidableEq

/-- The event trace of the sequential loop: each valid item's request
is issued and completed before the next item is touched (the recursive
call sits inside the completion callbacks, lines 149, 174, 191, 248,
264, 273), an invalid item is consumed with no network work, and the
promise resolves once the array is empty (lines 277-280). -/
def downloadEvents : List DItem → Nat → List Ev
  | [], _ => [Ev.resolve]
  | it :: rest, idx =>
    (if urlValid it.url then [Ev.start idx, Ev.finish idx]
     else [Ev.skipNoNet idx]) ++ downloadEvents rest (idx + 1)

/-- Walks a trace with the given pool width, checking that whenever
unstarted items remain and a slot is free the next event consumes a
pending item (a worker start or a no-network skip), never a finish or
a resolve. -/
def noIdleFrom (c : Nat) (inFlight pending : Nat) : List Ev → Bool
  | [] => true
  | e :: t =>
    (if 0 < pending ∧ inFlight < c then
      match e with
      | Ev.start _ => true
      | Ev.skipNoNet _ => true
      | _ => false
    else true)
    && (match e with
        | Ev.start _ => noIdleFrom c (inFlight + 1) (pending - 1) t
        | Ev.finish _ => noIdleFrom c (inFlight - 1) pending t
        | Ev.skipNoNet _ => noIdleFrom c inFlight (pending - 1) t
        | Ev.resolve => noIdleFrom c inFlight pending t)

/-- The no-idling property of a drain for a given pool width. -/
def noIdle (c : Nat) (items : List DItem) : Bool :=
  noIdleFrom c 0 items.length (downloadEvents items 0)

/-- The largest number of simultaneously in-flight workers along a
trace. -/
def maxInFlightFrom (inFlight : Nat) : List Ev → Nat
  | [] => inFlight
  | Ev.start _ :: t => max (inFlight + 1) (maxInFlightFrom (inFlight + 1) t)
  | Ev.finish _ :: t => maxInFlightFrom (inFlight - 1) t
  | _ :: t => maxInFlightFrom inFlight t

/-- The largest number of simultaneously in-flight workers of a drain. -/
def maxInFlight (items : List DItem) : Nat :=
  maxInFlightFrom 0 (downloadEvents items 0)

/-- Walks a trace checking that every resolve event happens with no
unstarted item remaining and no worker in flight. -/
def resolveOkFrom (inFlight pending : Nat) : List Ev → Bool
  | [] => true
  | Ev.resolve :: t =>
    (inFlight == 0 && pending == 0) && resolveOkFrom inFlight pending t
  | Ev.start _ :: t => resolveOkFrom (inFlight + 1) (pending - 1) t
  | Ev.finish _ :: t => resolveOkFrom (inFlight - 1) pending t
  | Ev.skipNoNet _ :: t => resolveOkFrom inFlight (pending - 1) t

/-- The drain resolves only once the pending set is empty and no worker
is in flight. -/
def resolveOnlyWhenDrained (items : List DItem) : Bool :=
  resolveOkFrom 0 items.length (downloadEvents items 0)

/-- The successive queue-store states of a drain: the state before each
step and the state after the last one. -/
def dbSeq : List DItem → List DItem → List (List DItem)
  | db, [] => [db]
  | db, it :: rest => db :: dbSeq (removeMediaItem db it.url) rest

/-- The queue store after deleting every url of a list. -/
def removeAllUrls (db : List DItem) (urls : List JsUrl) : List DItem :=
  db.filter (fun it => !(urls.contains it.url))

/-! ## Concrete inputs used by witnesses and counterexamples -/

/-- A history message with a numeric id and no attachments. -/
def msgN (i : Nat) : Msg := ⟨toString i, none, 0, []⟩

/-- A served page of one hundred messages. -/
def page100 : List Msg := (List.range 100).map msgN

/-- A served page of forty messages, older than the first page. -/
def page40 : List Msg := (List.range 40).map (fun i => msgN (100 + i))

/-- An image attachment on the image-serving host. -/
def attOne : Att := ⟨"image", "https://i.groupme.com/h1"⟩

/-- A non-image attachment, filtered out by the listing loop. -/
def attVid : Att := ⟨"video", "https://v.groupme.com/h2"⟩

/-- An image attachment repeating the url of the first one. -/
def attDup : Att := ⟨"image", "https://i.groupme.com/h1"⟩

/-- A second distinct image attachment. -/
def attTwo : Att := ⟨"image", "https://i.groupme.com/h3"⟩

/-- A named poster's message carrying an image and a video. -/
def msgOne : Msg := ⟨"a", some "Al", 5, [attOne, attVid]⟩

/-- An anonymous poster's message repeating a url and adding one. -/
def msgTwo : Msg := ⟨"b", none, 6, [attDup, attTwo]⟩

/-- A two-page history with a duplicate across pages. -/
def pagesW : List (List Msg) := [[msgOne], [msgTwo]]

/-- A queued item with a valid service url. -/
def itemA : DItem :=
  ⟨JsUrl.str "https://i.groupme.com/aaaa1111bbbb2222cccc3333dddd4444", "alice", some 1⟩

/-- A second queued item with a valid service url. -/
def itemB : DItem :=
  ⟨JsUrl.str "https://i.groupme.com/eeee5555ffff6666aaaa7777bbbb8888", "bob", none⟩

/-- A queued item whose url points outside the service domain. -/
def itemOffsite : DItem := ⟨JsUrl.str "https://example.com/pic.jpg", "carol", none⟩

/-- A two-item media list for a concrete drain. -/
def mlW : MediaList := ⟨"42", "Group", [itemA, itemB]⟩

/-- A whitespace-free image-host url for concrete evaluation. -/
def urlW : String := "https://i.groupme.com/0123456789abcdef0123456789abcdef"

/-! ## Filename-resolution lemmas -/

theorem splitOnChar_ne_nil (sep : Char) (cs : List Char) :
    splitOnChar sep cs ≠ [] := by
  cases cs with
  | nil => simp [splitOnChar]
  | cons c rest =>
    simp only [splitOnChar]
    by_cases h : c = sep
    · simp [h]
    · rw [if_neg h]
      cases hr : splitOnChar sep rest <;> simp

theorem joinWith_splitOnChar (sep rep : Char) (cs : List Char) :
    joinWith rep (splitOnChar sep cs)
      = cs.map (fun c => if c = sep then rep else c) := by
  induction cs with
  | nil => rfl
  | cons c rest ih =>
    simp only [splitOnChar, List.map_cons]
    by_cases h : c = sep
    · rw [if_pos h, if_pos h]
      have hne := splitOnChar_ne_nil sep rest
      cases hr : splitOnChar sep rest with
      | nil => exact absurd hr hne
      | cons x xs =>
        show joinWith rep ([] :: x :: xs) = rep :: rest.map _
        have hj : joinWith rep ([] :: x :: xs) = rep :: joinWith rep (x :: xs) := rfl
        rw [hj, ← hr, ih]
    · rw [if_neg h, if_neg h]
      have hne := splitOnChar_ne_nil sep rest
      cases hr : splitOnChar sep rest with
      | nil => exact absurd hr hne
      | cons x xs =>
        cases xs with
        | nil =>
          show joinWith rep [c :: x] = c :: rest.map _
          have hx : x = rest.map (fun c => if c = sep then rep else c) := by
            have h2 := ih
            rw [hr] at h2
            simpa [joinWith] using h2
          simp [joinWith, hx]
        | cons y ys =>
          show joinWith rep ((c :: x) :: y :: ys) = c :: rest.map _
          have hj : joinWith rep ((c :: x) :: y :: ys)
              = c :: joinWith rep (x :: y :: ys) := rfl
          rw [hj, ← hr, ih]

theorem takeWhile_eq_nil_of_false (p : Char → Bool) (l : List Char)
    (h : ∀ c ∈ l, p c = false) : l.takeWhile p = [] := by
  cases l with
  | nil => rfl
  | cons a t => simp [List.takeWhile_cons, h a (List.mem_cons_self a t)]

/-- Claim C5 counterexample: on a video-host url whose last path
segment holds two dots, the resolver truncates the segment at its first
dot (the split takes index zero), not merely stripping the trailing
extension as the claim states, so the produced name disagrees with the
claimed one. -/
theorem C5_counterexample_video_hash :
    renameFile "https://v.groupme.com/a.b.c" "user" = "user-a.mp4"
    ∧ ¬ renameFile "https://v.groupme.com/a.b.c" "user" = "user-a.b.mp4" := by
  constructor
  · decide
  · decide

/-- Claim C5 amended: for whitespace-free urls the resolver classifies
as image exactly when the parsed hostname is the image-serving host;
the image hash is the trailing 32 characters when the url has at least
32 and the literal unknown otherwise; the video hash is the last path
segment truncated at its first dot (not merely its trailing extension
stripped), the literal unknown when the url ends in a slash or is
empty; the extension is the leftmost match of the image or video
pattern with jpg and mp4 dotted defaults; and the file name is the
space-to-underscore user, a hyphen, the hash, and the extension. -/
theorem C5_amended_renameFile (u userName : String)
    (h : ∀ c ∈ u.data, c.isWhitespace = false) :
    renameFile u userName
      = String.mk (userName.data.map (fun c => if c = ' ' then '_' else c))
        ++ "-"
        ++ (if hostnameOf u = some "i.groupme.com" then
              (if 32 ≤ u.data.length then
                String.mk (u.data.drop (u.data.length - 32))
               else "unknown")
            else
              match u.data.reverse.takeWhile (fun c => ¬ c = '/') with
              | [] => "unknown"
              | l => String.mk (l.reverse.takeWhile (fun c => ¬ c = '.')))
        ++ (match firstExtMatch
              (if hostnameOf u = some "i.groupme.com" then IMAGE_FILE_TYPES
               else VIDEO_FILE_TYPES) u.data with
            | some t => t
            | none =>
              if hostnameOf u = some "i.groupme.com" then ".jpg" else ".mp4") := by
  have huser : jsUserName userName
      = String.mk (userName.data.map (fun c => if c = ' ' then '_' else c)) := by
    rw [jsUserName, joinWith_splitOnChar]
  have hw : u.data.reverse.takeWhile jsWhitespace = [] :=
    takeWhile_eq_nil_of_false _ _ (fun c hc => by
      have h2 := h c (List.mem_reverse.mp hc)
      simpa [jsWhitespace] using h2)
  by_cases himg : hostnameOf u = some "i.groupme.com"
  · have hb : (hostnameOf u == some "i.groupme.com") = true := by
      simp [himg]
    simp only [renameFile, hb, if_true, if_pos himg, imageHashMatch, hw,
      List.length_nil, Nat.sub_zero, huser]
    by_cases hle : 32 ≤ u.data.length
    · rw [if_pos hle, if_pos hle]
    · rw [if_neg hle, if_neg hle]
  · have hb : (hostnameOf u == some "i.groupme.com") = false := by
      simp [himg]
    simp only [renameFile, hb, Bool.false_eq_true, if_false, if_neg himg,
      videoHashMatch, huser]
    cases hv : u.data.reverse.takeWhile (fun c => ¬ c = '/') with
    | nil => simp [hv]
    | cons a l2 => simp [hv]

theorem C5_amended_witness :
    (∀ c ∈ urlW.data, c.isWhitespace = false)
    ∧ renameFile urlW "Jane Doe"
        = String.mk (("Jane Doe" : String).data.map
            (fun c => if c = ' ' then '_' else c))
          ++ "-"
          ++ (if hostnameOf urlW = some "i.groupme.com" then
                (if 32 ≤ urlW.data.length then
                  String.mk (urlW.data.drop (urlW.data.length - 32))
                 else "unknown")
              else
                match urlW.data.reverse.takeWhile (fun c => ¬ c = '/') with
                | [] => "unknown"
                | l => String.mk (l.reverse.takeWhile (fun c => ¬ c = '.')))
          ++ (match firstExtMatch
                (if hostnameOf urlW = some "i.groupme.com" then IMAGE_FILE_TYPES
                 else VIDEO_FILE_TYPES) urlW.data with
              | some t => t
              | none =>
                if hostnameOf urlW = some "i.groupme.com" then ".jpg" else ".mp4") :=
  ⟨by decide, C5_amended_renameFile urlW "Jane Doe" (by decide)⟩

/-! ## Listing lemmas -/

theorem buildGo_304_eq_empty (m : List Msg) :
    ∀ (resps : List Resp) (before : Option String) (seen : List String)
      (acc : List BItem),
      buildGo (resps ++ [⟨304, m⟩]) before seen acc
        = buildGo (resps ++ [⟨200, []⟩]) before seen acc := by
  intro resps
  induction resps with
  | nil =>
    intro before seen acc
    rfl
  | cons r rs ih =>
    intro before seen acc
    simp only [List.cons_append, buildGo]
    split
    · split
      · rfl
      · simp only [List.append_eq]
        rw [ih]
    · rfl

theorem buildGo_304_halts (m : List Msg) (extra : List Resp) :
    ∀ (resps : List Resp) (before : Option String) (seen : List String)
      (acc : List BItem),
      buildGo (resps ++ ⟨304, m⟩ :: extra) before seen acc
        = buildGo (resps ++ [⟨304, m⟩]) before seen acc := by
  intro resps
  induction resps with
  | nil =>
    intro before seen acc
    rfl
  | cons r rs ih =>
    intro before seen acc
    simp only [List.cons_append, buildGo]
    split
    · split
      · rfl
      · simp only [List.append_eq]
        rw [ih]
    · rfl

/-- Claim C4: during listing, an HTTP 304 response is treated as an
empty page rather than an error: after any prefix of responses, a 304
(whatever body the model attaches to it) produces exactly the result a
zero-message 200 response would, and pagination halts there, never
consulting a later response. -/
theorem C4_listing_304_empty_page (resps : List Resp) (m : List Msg) :
    runBuilder (resps ++ [⟨304, m⟩]) = runBuilder (resps ++ [⟨200, []⟩])
    ∧ ∀ extra : List Resp,
        runBuilder (resps ++ ⟨304, m⟩ :: extra)
          = runBuilder (resps ++ [⟨304, m⟩]) :=
  ⟨buildGo_304_eq_empty m resps none [] [],
   fun extra => buildGo_304_halts m extra resps none [] []⟩

/-- Claim C9 counterexample: serving pages of one hundred and forty
messages, the listing loop issues a third request (the trace has three
requests), because only a zero-message page ends pagination; the claim
says no third request is made. -/
theorem C9_counterexample_third_request :
    (builtReqs [⟨200, page100⟩, ⟨200, page40⟩]).length = 3 := by decide

/-! ### Dedup-and-pagination lemmas for the listing claims -/

theorem foldl_addItem_eq (ps : List (Msg × Att)) :
    ∀ (seen : List String) (acc : List BItem),
      ps.foldl addItem (seen, acc)
        = (seenAfter seen (urlsOfPairs ps), acc ++ addedItems seen ps) := by
  induction ps with
  | nil => intro seen acc; simp [seenAfter, addedItems, urlsOfPairs]
  | cons p ps ih =>
    intro seen acc
    simp only [List.foldl_cons, urlsOfPairs, List.map_cons]
    by_cases hm : p.2.url ∈ seen
    · rw [show addItem (seen, acc) p = (seen, acc) from by simp [addItem, hm]]
      rw [ih]
      simp [seenAfter, addedItems, hm, urlsOfPairs]
    · rw [show addItem (seen, acc) p = (p.2.url :: seen, acc ++ [mkItem p.1 p.2])
        from by simp [addItem, hm]]
      rw [ih]
      simp [seenAfter, addedItems, hm, urlsOfPairs, List.append_assoc]

theorem dedupFirstAux_append (l1 l2 : List String) :
    ∀ seen : List String,
      dedupFirstAux seen (l1 ++ l2)
        = dedupFirstAux seen l1 ++ dedupFirstAux (seenAfter seen l1) l2 := by
  induction l1 with
  | nil => intro seen; simp [dedupFirstAux, seenAfter]
  | cons u us ih =>
    intro seen
    by_cases hm : u ∈ seen
    · simp [dedupFirstAux, seenAfter, hm, ih]
    · simp [dedupFirstAux, seenAfter, hm, ih]

theorem addedItems_map_url (ps : List (Msg × Att)) :
    ∀ seen : List String,
      (addedItems seen ps).map (fun it => it.url)
        = dedupFirstAux seen (urlsOfPairs ps) := by
  induction ps with
  | nil => intro seen; simp [addedItems, urlsOfPairs, dedupFirstAux]
  | cons p ps ih =>
    intro seen
    by_cases hm : p.2.url ∈ seen
    · simp [addedItems, urlsOfPairs, dedupFirstAux, hm, ih]
    · simp [addedItems, urlsOfPairs, dedupFirstAux, hm, ih, mkItem]

theorem addedAll_map_url (pages : List (List Msg)) :
    ∀ seen : List String,
      (addedAll seen pages).map (fun it => it.url)
        = dedupFirstAux seen (imageUrls pages) := by
  induction pages with
  | nil => intro seen; simp [addedAll, imageUrls, dedupFirstAux]
  | cons p ps ih =>
    intro seen
    simp only [addedAll, imageUrls, List.flatMap_cons, List.map_append]
    rw [addedItems_map_url, dedupFirstAux_append, ih]
    rfl

theorem dedupFirstAux_not_seen (l : List String) :
    ∀ (seen : List String) (u : String),
      u ∈ dedupFirstAux seen l → u ∉ seen := by
  induction l with
  | nil => intro seen u h; simp [dedupFirstAux] at h
  | cons v vs ih =>
    intro seen u h
    by_cases hm : v ∈ seen
    · rw [dedupFirstAux, if_pos (by simpa using hm)] at h
      exact ih seen u h
    · rw [dedupFirstAux, if_neg (by simpa using hm)] at h
      rcases List.mem_cons.mp h with rfl | h2
      · exact hm
      · have h3 := ih (v :: seen) u h2
        exact fun hu => h3 (List.mem_cons_of_mem v hu)

theorem dedupFirstAux_nodup (l : List String) :
    ∀ seen : List String, (dedupFirstAux seen l).Nodup := by
  induction l with
  | nil => intro seen; simp [dedupFirstAux]
  | cons v vs ih =>
    intro seen
    by_cases hm : v ∈ seen
    · rw [dedupFirstAux, if_pos (by simpa using hm)]
      exact ih seen
    · rw [dedupFirstAux, if_neg (by simpa using hm)]
      refine List.nodup_cons.mpr ⟨?_, ih _⟩
      intro hmem
      exact dedupFirstAux_not_seen vs (v :: seen) v hmem (List.mem_cons_self v seen)

theorem buildGo_cons_200 (p : List Msg) (rs : List Resp) (before : Option String)
    (seen : List String) (acc : List BItem) (lastM : Msg)
    (hl : p.getLast? = some lastM) :
    buildGo (⟨200, p⟩ :: rs) before seen acc
      = match buildGo rs (some lastM.id)
            ((imagePairs p).foldl addItem (seen, acc)).1
            ((imagePairs p).foldl addItem (seen, acc)).2 with
        | Except.ok (m, reqs) => Except.ok (m, ⟨100, before⟩ :: reqs)
        | Except.error e => Except.error e := by
  simp [buildGo, hl]

theorem buildGo_pages_ok (pages : List (List Msg)) :
    ∀ (before : Option String) (seen : List String) (acc : List BItem),
      (∀ p ∈ pages, p ≠ []) →
      buildGo (pages.map (fun p => ⟨200, p⟩)) before seen acc
        = Except.ok (acc ++ addedAll seen pages,
            ⟨100, before⟩
              :: pages.map (fun p => ⟨100, p.getLast?.map Msg.id⟩)) := by
  induction pages with
  | nil =>
    intro before seen acc _
    simp [buildGo, addedAll]
  | cons p ps ih =>
    intro before seen acc hne
    have hp : p ≠ [] := hne p (List.mem_cons_self p ps)
    obtain ⟨lastM, hl⟩ : ∃ lm, p.getLast? = some lm := by
      cases hq : p.getLast? with
      | none => exact absurd (List.getLast?_eq_none_iff.mp hq) hp
      | some lm => exact ⟨lm, rfl⟩
    rw [List.map_cons, buildGo_cons_200 p _ before seen acc lastM hl,
      foldl_addItem_eq]
    rw [ih (some lastM.id) _ _ (fun q hq => hne q (List.mem_cons_of_mem p hq))]
    simp [addedAll, hl, List.append_assoc]

/-- Claim C1: for a history served as pages of messages (every served
page nonempty, all statuses 200, the server answering the request after
the last page with an empty page), the built queue's urls are exactly
the first-occurrence deduplication of the image-attachment urls in page
order and within-page message order with no duplicate entries, and the
loop issues one request per served page plus the final empty one, every
request carrying the 100-message limit and a cursor equal to the id of
the previous page's last message (none on the first). -/
theorem C1_mediaListBuilder_dedup_pagination (pages : List (List Msg))
    (hne : ∀ p ∈ pages, p ≠ []) :
    (builtMedia (pages.map (fun p => ⟨200, p⟩))).map (fun it => it.url)
        = dedupFirstAux [] (imageUrls pages)
    ∧ ((builtMedia (pages.map (fun p => ⟨200, p⟩))).map (fun it => it.url)).Nodup
    ∧ builtReqs (pages.map (fun p => ⟨200, p⟩))
        = ⟨100, none⟩ :: pages.map (fun p => ⟨100, p.getLast?.map Msg.id⟩) := by
  have h := buildGo_pages_ok pages none [] [] hne
  have hm : builtMedia (pages.map (fun p => ⟨200, p⟩)) = addedAll [] pages := by
    simp [builtMedia, runBuilder, h]
  have hr : builtReqs (pages.map (fun p => ⟨200, p⟩))
      = ⟨100, none⟩ :: pages.map (fun p => ⟨100, p.getLast?.map Msg.id⟩) := by
    simp [builtReqs, runBuilder, h]
  refine ⟨?_, ?_, hr⟩
  · rw [hm, addedAll_map_url]
  · rw [hm, addedAll_map_url]
    exact dedupFirstAux_nodup _ _

theorem C1_witness :
    (∀ p ∈ pagesW, p ≠ [])
    ∧ ((builtMedia (pagesW.map (fun p => ⟨200, p⟩))).map (fun it => it.url)
          = dedupFirstAux [] (imageUrls pagesW)
      ∧ ((builtMedia (pagesW.map (fun p => ⟨200, p⟩))).map (fun it => it.url)).Nodup
      ∧ builtReqs (pagesW.map (fun p => ⟨200, p⟩))
          = ⟨100, none⟩ :: pagesW.map (fun p => ⟨100, p.getLast?.map Msg.id⟩)) :=
  ⟨by decide, C1_mediaListBuilder_dedup_pagination pagesW (by decide)⟩

/-- Claim C9 amended: after two nonempty 200 pages (of any sizes, in
particular one hundred then forty messages) the loop does issue a third
request, carrying the id of the second page's last message as cursor,
and stops only because that third page comes back empty — a short page
does not end pagination, a zero-message page does. -/
theorem C9_amended_third_request (p1 p2 : List Msg)
    (h1 : p1 ≠ []) (h2 : p2 ≠ []) :
    builtReqs [⟨200, p1⟩, ⟨200, p2⟩]
      = [⟨100, none⟩, ⟨100, p1.getLast?.map Msg.id⟩,
         ⟨100, p2.getLast?.map Msg.id⟩] := by
  have h := buildGo_pages_ok [p1, p2] none [] [] (by simp [h1, h2])
  simp only [List.map_cons, List.map_nil] at h
  simp [builtReqs, runBuilder, h]

theorem C9_amended_witness :
    (([msgOne] : List Msg) ≠ []) ∧ (([msgTwo] : List Msg) ≠ [])
    ∧ builtReqs [⟨200, [msgOne]⟩, ⟨200, [msgTwo]⟩]
        = [⟨100, none⟩, ⟨100, ([msgOne] : List Msg).getLast?.map Msg.id⟩,
           ⟨100, ([msgTwo] : List Msg).getLast?.map Msg.id⟩] :=
  ⟨by decide, by decide,
   C9_amended_third_request [msgOne] [msgTwo] (by decide) (by decide)⟩

/-! ## Download worker lemmas -/

theorem downloaderGo_fst_length (beh : Nat → Behavior) (items : List DItem) :
    ∀ (idx : Nat) (db : List DItem),
      (downloaderGo beh items idx db).1.length = items.length := by
  induction items with
  | nil => intro idx db; rfl
  | cons it rest ih =>
    intro idx db
    simp only [downloaderGo, List.length_cons]
    rw [ih]

/-- Claim C7: a worker given an item whose url is empty, not a string,
or lacking the service-domain substring returns the invalid-url skip
and issues no HTTP request (and opens no file). -/
theorem C7_invalid_url_skipped (beh : Behavior) (it : DItem)
    (h : urlValid it.url = false) :
    downloadItem beh it
      = ⟨Outcome.skipped "invalid-url", false, false, false, false⟩ := by
  simp [downloadItem, h]

theorem C7_witness :
    urlValid itemOffsite.url = false
    ∧ downloadItem Behavior.timeout itemOffsite
        = ⟨Outcome.skipped "invalid-url", false, false, false, false⟩ :=
  ⟨by decide, C7_invalid_url_skipped Behavior.timeout itemOffsite (by decide)⟩

/-- Claim C8: when the per-item deadline fires first, the worker
destroys the request, deletes the partial destination file, and fails
the item as a timeout; the outcome is item-local: the loop goes on to
produce an outcome for every remaining item instead of aborting. -/
theorem C8_timeout_item_local (beh : Nat → Behavior) (it : DItem)
    (rest db : List DItem) (hv : urlValid it.url = true)
    (hb : beh 0 = Behavior.timeout) :
    downloadItem (beh 0) it = ⟨Outcome.failed "timeout", true, true, true, false⟩
    ∧ (downloaderGo beh (it :: rest) 0 db).1
        = Outcome.failed "timeout"
            :: (downloaderGo beh rest 1 (removeMediaItem db it.url)).1
    ∧ (downloaderGo beh (it :: rest) 0 db).1.length = rest.length + 1 := by
  have h1 : downloadItem (beh 0) it
      = ⟨Outcome.failed "timeout", true, true, true, false⟩ := by
    rw [hb]; simp [downloadItem, hv]
  refine ⟨h1, ?_, ?_⟩
  · simp only [downloaderGo, h1]
  · rw [downloaderGo_fst_length]
    simp

theorem C8_witness :
    urlValid itemA.url = true
    ∧ (fun _ : Nat => Behavior.timeout) 0 = Behavior.timeout
    ∧ (downloadItem ((fun _ : Nat => Behavior.timeout) 0) itemA
        = ⟨Outcome.failed "timeout", true, true, true, false⟩
      ∧ (downloaderGo (fun _ => Behavior.timeout) (itemA :: [itemB]) 0 [itemA, itemB]).1
          = Outcome.failed "timeout"
              :: (downloaderGo (fun _ => Behavior.timeout) [itemB] 1
                    (removeMediaItem [itemA, itemB] itemA.url)).1
      ∧ (downloaderGo (fun _ => Behavior.timeout) (itemA :: [itemB]) 0
            [itemA, itemB]).1.length = [itemB].length + 1) :=
  ⟨by decide, rfl,
   C8_timeout_item_local (fun _ => Behavior.timeout) itemA [itemB] [itemA, itemB]
     (by decide) rfl⟩

/-! ## Queue-store lemmas -/

theorem resolveOkFrom_events (items : List DItem) :
    ∀ idx : Nat, resolveOkFrom 0 items.length (downloadEvents items idx) = true := by
  induction items with
  | nil => intro idx; rfl
  | cons it rest ih =>
    intro idx
    by_cases hv : urlValid it.url = true
    · simp only [downloadEvents, if_pos hv, List.cons_append, List.nil_append,
        List.length_cons, resolveOkFrom, Nat.add_sub_cancel]
      exact ih (idx + 1)
    · simp only [downloadEvents, if_neg hv, List.cons_append, List.nil_append,
        List.length_cons, resolveOkFrom, Nat.add_sub_cancel]
      exact ih (idx + 1)


theorem downloaderGo_snd_eq_dbSeq (beh : Nat → Behavior) (items : List DItem) :
    ∀ (idx : Nat) (db : List DItem),
      (downloaderGo beh items idx db).2 = dbSeq db items := by
  induction items with
  | nil => intro idx db; rfl
  | cons it rest ih =>
    intro idx db
    simp only [downloaderGo, dbSeq]
    rw [ih]

theorem dbSeq_getD_zero (items : List DItem) (db : List DItem) :
    (dbSeq db items).getD 0 [] = db := by
  cases items <;> rfl

theorem dbSeq_getD_succ (items : List DItem) :
    ∀ (db : List DItem) (i : Nat) (h : i < items.length),
      (dbSeq db items).getD (i + 1) []
        = removeMediaItem ((dbSeq db items).getD i []) (items.get ⟨i, h⟩).url := by
  induction items with
  | nil => intro db i h; exact absurd h (by simp)
  | cons it rest ih =>
    intro db i h
    cases i with
    | zero =>
      simp only [dbSeq, List.getD_cons_succ, List.getD_cons_zero, List.get_cons_zero]
      rw [dbSeq_getD_zero]
      rfl
    | succ i =>
      simp only [dbSeq, List.getD_cons_succ, List.get_cons_succ]
      exact ih _ i (by simpa using h)

theorem dbSeq_getD_sublist (items : List DItem) :
    ∀ (db : List DItem) (i : Nat),
      List.Sublist ((dbSeq db items).getD (i + 1) []) ((dbSeq db items).getD i []) := by
  induction items with
  | nil =>
    intro db i
    cases i with
    | zero => simp [dbSeq]
    | succ i => simp [dbSeq]
  | cons it rest ih =>
    intro db i
    cases i with
    | zero =>
      simp only [dbSeq, List.getD_cons_succ, List.getD_cons_zero]
      rw [dbSeq_getD_zero]
      exact List.filter_sublist db
    | succ i =>
      simp only [dbSeq, List.getD_cons_succ]
      exact ih _ i

theorem removeMediaItem_url_not_mem (db : List DItem) (u : JsUrl) :
    ∀ it2 ∈ removeMediaItem db u, it2.url ≠ u := by
  intro it2 h2
  simp only [removeMediaItem, List.mem_filter, bne_iff_ne, ne_eq] at h2
  exact h2.2

theorem removeAllUrls_nil (db : List DItem) : removeAllUrls db [] = db := by
  simp [removeAllUrls]

theorem removeAllUrls_remove (db : List DItem) (u : JsUrl) (urls : List JsUrl) :
    removeAllUrls (removeMediaItem db u) urls = removeAllUrls db (u :: urls) := by
  simp only [removeAllUrls, removeMediaItem, List.filter_filter]
  apply List.filter_congr
  intro x _
  by_cases hxu : x.url = u
  · simp [hxu]
  · simp [hxu, Bool.and_comm]

theorem dbSeq_getLastD (items : List DItem) :
    ∀ (db d : List DItem),
      (dbSeq db items).getLastD d = removeAllUrls db (items.map DItem.url) := by
  induction items with
  | nil => intro db d; simp [dbSeq, removeAllUrls_nil]
  | cons it rest ih =>
    intro db d
    simp only [dbSeq, List.map_cons, List.getLastD_cons]
    rw [ih, removeAllUrls_remove]

theorem removeAllUrls_self (items : List DItem) :
    removeAllUrls items (items.map DItem.url) = [] := by
  apply List.filter_eq_nil_iff.mpr
  intro a ha
  have hmem : a.url ∈ items.map DItem.url := List.mem_map_of_mem DItem.url ha
  simp [hmem]

/-- Claim C2: whatever each item's network behaviour, every terminal
branch removes the item from the persisted queue by its url: the queue
state after step i is the state before it with that item's url deleted,
the removed url no longer occurs in any entry of that state, successive
states only shrink (sublists, so an item once removed is never
reinserted by the pipeline), and the loop emits exactly one terminal
outcome per queued item — at most one attempt per item per invocation. -/
theorem C2_terminal_branches_remove (beh : Nat → Behavior) (items : List DItem) :
    (drainOutcomes beh items).length = items.length
    ∧ (∀ (i : Nat) (h : i < items.length),
        (dbStates beh items).getD (i + 1) []
            = removeMediaItem ((dbStates beh items).getD i [])
                (items.get ⟨i, h⟩).url
        ∧ ∀ it2 ∈ (dbStates beh items).getD (i + 1) [],
            it2.url ≠ (items.get ⟨i, h⟩).url)
    ∧ ∀ i : Nat,
        List.Sublist ((dbStates beh items).getD (i + 1) [])
          ((dbStates beh items).getD i []) := by
  have hs : dbStates beh items = dbSeq items items :=
    downloaderGo_snd_eq_dbSeq beh items 0 items
  refine ⟨downloaderGo_fst_length beh items 0 items, ?_, ?_⟩
  · intro i h
    rw [hs]
    refine ⟨dbSeq_getD_succ items items i h, ?_⟩
    rw [dbSeq_getD_succ items items i h]
    exact removeMediaItem_url_not_mem _ _
  · intro i
    rw [hs]
    exact dbSeq_getD_sublist items items i

theorem C2_witness :
    (drainOutcomes (fun _ => Behavior.response 404) [itemA, itemOffsite]).length
        = ([itemA, itemOffsite] : List DItem).length
    ∧ (∀ (i : Nat) (h : i < ([itemA, itemOffsite] : List DItem).length),
        (dbStates (fun _ => Behavior.response 404) [itemA, itemOffsite]).getD (i + 1) []
            = removeMediaItem
                ((dbStates (fun _ => Behavior.response 404) [itemA, itemOffsite]).getD i [])
                (([itemA, itemOffsite] : List DItem).get ⟨i, h⟩).url
        ∧ ∀ it2 ∈ (dbStates (fun _ => Behavior.response 404) [itemA, itemOffsite]).getD (i + 1) [],
            it2.url ≠ (([itemA, itemOffsite] : List DItem).get ⟨i, h⟩).url)
    ∧ ∀ i : Nat,
        List.Sublist
          ((dbStates (fun _ => Behavior.response 404) [itemA, itemOffsite]).getD (i + 1) [])
          ((dbStates (fun _ => Behavior.response 404) [itemA, itemOffsite]).getD i []) :=
  C2_terminal_branches_remove (fun _ => Behavior.response 404) [itemA, itemOffsite]

/-- Claim C3: for every queue of K items and concurrency C with
1 ≤ C ≤ K, the drain succeeds, emits exactly K terminal outcomes,
leaves the persisted queue empty, resolves only when no item is pending
and no worker is in flight, and its whole result is independent of C. -/
theorem C3_drain_empties_queue (beh : Nat → Behavior) (ml : MediaList) (c : Nat)
    (hc1 : 1 ≤ c) (hck : c ≤ ml.media.length)
    (hg : ¬ ml.groupId = "") (hn : ¬ ml.groupName = "") :
    mediaDownloader beh ml c
        = Except.ok (drainOutcomes beh ml.media, dbStates beh ml.media)
    ∧ (drainOutcomes beh ml.media).length = ml.media.length
    ∧ (dbStates beh ml.media).getLastD [] = []
    ∧ resolveOnlyWhenDrained ml.media = true
    ∧ ∀ c2 : Nat, mediaDownloader beh ml c2 = mediaDownloader beh ml c := by
  refine ⟨?_, downloaderGo_fst_length beh ml.media 0 ml.media, ?_,
    resolveOkFrom_events ml.media 0, fun c2 => rfl⟩
  · simp [mediaDownloader, hg, hn, drainOutcomes, dbStates]
  · have hs : dbStates beh ml.media = dbSeq ml.media ml.media :=
      downloaderGo_snd_eq_dbSeq beh ml.media 0 ml.media
    rw [hs, dbSeq_getLastD, removeAllUrls_self]

theorem C3_witness :
    (1 ≤ 2 ∧ 2 ≤ mlW.media.length ∧ ¬ mlW.groupId = "" ∧ ¬ mlW.groupName = "")
    ∧ (mediaDownloader (fun _ => Behavior.response 200) mlW 2
          = Except.ok (drainOutcomes (fun _ => Behavior.response 200) mlW.media,
              dbStates (fun _ => Behavior.response 200) mlW.media)
      ∧ (drainOutcomes (fun _ => Behavior.response 200) mlW.media).length
          = mlW.media.length
      ∧ (dbStates (fun _ => Behavior.response 200) mlW.media).getLastD [] = []
      ∧ resolveOnlyWhenDrained mlW.media = true
      ∧ ∀ c2 : Nat,
          mediaDownloader (fun _ => Behavior.response 200) mlW c2
            = mediaDownloader (fun _ => Behavior.response 200) mlW 2) :=
  ⟨⟨by decide, by decide, by decide, by decide⟩,
   C3_drain_empties_queue (fun _ => Behavior.response 200) mlW 2
     (by decide) (by decide) (by decide) (by decide)⟩

/-! ## Scheduling lemmas -/

theorem maxInFlight_events_le_one (items : List DItem) :
    ∀ idx : Nat, maxInFlightFrom 0 (downloadEvents items idx) ≤ 1 := by
  induction items with
  | nil => intro idx; simp [downloadEvents, maxInFlightFrom]
  | cons it rest ih =>
    intro idx
    by_cases hv : urlValid it.url = true
    · simp only [downloadEvents, if_pos hv, List.cons_append, List.nil_append,
        maxInFlightFrom, Nat.add_sub_cancel]
      have := ih (idx + 1)
      omega
    · simp only [downloadEvents, if_neg hv, List.cons_append, List.nil_append,
        maxInFlightFrom]
      exact ih (idx + 1)

theorem noIdleFrom_one (items : List DItem) :
    ∀ idx : Nat, noIdleFrom 1 0 items.length (downloadEvents items idx) = true := by
  induction items with
  | nil => intro idx; rfl
  | cons it rest ih =>
    intro idx
    by_cases hv : urlValid it.url = true
    · simp [downloadEvents, hv, noIdleFrom, Nat.add_sub_cancel, ih (idx + 1)]
    · simp [downloadEvents, hv, noIdleFrom, Nat.add_sub_cancel, ih (idx + 1)]

/-- Claim C10 counterexample: two pending valid items drained with a
configured concurrency of two violate the never-idling property: after
the first worker starts, an item is still pending and a slot is free,
yet the next event is that worker's completion, not another start. -/
theorem C10_counterexample_pool_idles : noIdle 2 [itemA, itemB] = false := by decide

/-- Claim C10 amended: the downloader runs items strictly sequentially:
at most one worker is ever in flight, on each completion the next
pending item starts immediately (the pool-width-one no-idle property),
and the parallel count callers pass to it is ignored, so the default 3
and the 1-10 range collected by the CLI never influence scheduling. -/
theorem C10_amended_sequential_scheduler (items : List DItem) :
    maxInFlight items ≤ 1 ∧ noIdle 1 items = true
    ∧ ∀ (beh : Nat → Behavior) (ml : MediaList) (c1 c2 : Nat),
        mediaDownloader beh ml c1 = mediaDownloader beh ml c2 :=
  ⟨maxInFlight_events_le_one items 0, noIdleFrom_one items 0,
   fun _ _ _ _ => rfl⟩

/-! ## Sanitization lemmas -/

theorem sanitizeClass_mem (c : Char) :
    inSanitizeClass c = true
      ↔ c ∈ ['<', '>', ':', '"', '/', '|', '?', '*', ']', '&'] := by
  simp only [inSanitizeClass, Bool.or_eq_true, decide_eq_true_eq,
    List.mem_cons, List.not_mem_nil, or_false]
  tauto

/-- Claim C6 counterexample: the claim says a backslash is replaced by
an underscore, but the regex character class does not contain the
backslash, so a name holding one passes through unchanged. -/
theorem C6_counterexample_backslash :
    sanitizeString "a\\b" = "a\\b" ∧ ¬ sanitizeString "a\\b" = "a_b" := by
  constructor
  · decide
  · decide

/-- Claim C6 amended: the sanitizer trims surrounding whitespace,
replaces the first space with a hyphen, and replaces each occurrence of
the characters of the class (less-than, greater-than, colon, double
quote, forward slash, pipe, question mark, asterisk, closing bracket,
ampersand — the backslash is not among them) with an underscore; for
posters an absent display name yields the literal UnknownUser. -/
theorem C6_amended_sanitize (s : String) :
    sanitizeString s
        = String.mk ((replaceFirstSpace (jsTrim s.data)).map
            (fun c =>
              if c ∈ ['<', '>', ':', '"', '/', '|', '?', '*', ']', '&'] then '_'
              else c))
    ∧ userOf none = "UnknownUser" := by
  constructor
  · have hfun : (fun c => if inSanitizeClass c then '_' else c)
        = fun c =>
            if c ∈ ['<', '>', ':', '"', '/', '|', '?', '*', ']', '&'] then '_'
            else c := by
      funext c
      by_cases h : inSanitizeClass c = true
      · rw [if_pos h, if_pos ((sanitizeClass_mem c).mp h)]
      · rw [if_neg h, if_neg (fun hm => h ((sanitizeClass_mem c).mpr hm))]
    rw [sanitizeString, hfun]
  · rfl

end GGD
